import Mathlib

/-!
Verification development for the slash-command invocation resolver
(disnake/ext/commands/slash_core.py).

The Python module is shallowly embedded: Python dicts become association
lists with Python dict semantics (insertion order preserved; updating an
existing key keeps its position, inserting a new key appends at the end),
exceptions become an explicit Outcome type, and the observable effects of
an invocation (messages sent, hooks run, bodies called, error handlers
notified, concurrency-slot releases) are recorded in an event trace.
External collaborator calls whose code is outside this module (the base
class invoke, the prepare hook, the parameter resolver, local error
handler delivery) are modelled as trace events with behaviour supplied by
the handler-tree data, as documented at each definition.
-/

/-- A value in the raw option tree of an interaction: either a scalar leaf
value or a nested mapping (Python dict). -/
inductive OptValue where
  | scalar (n : Int)
  | nested (opts : List (String × OptValue))

/-- Lookup in a Python dict modelled as an association list. -/
def dictGet {α : Type} (k : String) : List (String × α) → Option α
  | [] => none
  | (k1, v) :: rest => if k1 = k then some v else dictGet k rest

/-- Python dict assignment d[k] = v: update the existing key in place,
otherwise append the new key at the end. -/
def dictSet {α : Type} (k : String) (v : α) : List (String × α) → List (String × α)
  | [] => [(k, v)]
  | (k1, v1) :: rest => if k1 = k then (k, v) :: rest else (k1, v1) :: dictSet k v rest

/-- Python dict d.pop(k): remove the entry with key k (keys are unique in
a Python dict, so removing the first occurrence is exact). -/
def dictPop {α : Type} (k : String) : List (String × α) → List (String × α)
  | [] => []
  | (k1, v1) :: rest => if k1 = k then rest else (k1, v1) :: dictPop k rest

/-- Embedding of options_as_route (slash_core.py lines 43-50): turn a
nested option tree into a (path, leaf-arguments) pair.  If the tree is
empty return ((), ()); otherwise inspect the first entry; if its value is
a nested mapping, recurse into it and prepend the key to the path;
otherwise the whole tree already is the flat leaf-argument mapping. -/
def options_as_route : List (String × OptValue) → List String × List (String × OptValue)
  | [] => ([], [])
  | (name, OptValue.nested value) :: _ =>
      let r := options_as_route value
      (name :: r.1, r.2)
  | (name, OptValue.scalar v) :: rest => ([], (name, OptValue.scalar v) :: rest)

/-- treeDepthLe d opts holds when every branch of the option tree nests at
most d mapping levels below the top level (a flat scalar map has depth 0). -/
def treeDepthLe : Nat → List (String × OptValue) → Bool
  | _, [] => true
  | d, (_, OptValue.scalar _) :: rest => treeDepthLe d rest
  | 0, (_, OptValue.nested _) :: _ => false
  | d + 1, (_, OptValue.nested o) :: rest => treeDepthLe d o && treeDepthLe (d + 1) rest

/-- Exceptions relevant to the module, with the Python class hierarchy made
explicit: CommandError and its subclass CommandInvokeError are domain-level
command errors; asyncio.CancelledError is a BaseException, so it is not
caught by an except-Exception clause; ValueError and AssertionError are
ordinary Exceptions, as is the generic otherError. -/
inductive Err where
  | commandError (id : Nat)
  | commandInvokeError (cause : Err)
  | cancelledError
  | valueError (msg : String)
  | assertionError
  | otherError (id : Nat)
  deriving DecidableEq

/-- Whether an exception is an instance of CommandError (CommandInvokeError
is a CommandError subclass). -/
def Err.isCommandError : Err → Bool
  | Err.commandError _ => true
  | Err.commandInvokeError _ => true
  | _ => false

/-- Result of running one piece of Python code: normal completion or a
propagating exception. -/
inductive Outcome where
  | ok
  | raise (e : Err)
  deriving DecidableEq

/-- Observable effects of an invocation, in order of occurrence.
callBody records an actual handler-body call together with the keyword
arguments the body receives; resolveParams records the argument-binder call
(resolve_param_kwargs) and the map handed to it; localErrorHandler,
cogSlashError and dispatchSlashCommandError record error notifications;
release records a concurrency-slot release; prepare and afterHooks record
the lifecycle hook calls. -/
inductive Event where
  | sendMessage (text : String) (ephemeral : Bool)
  | prepare
  | resolveParams (kwargs : List (String × OptValue))
  | callBody (who : String) (kwargs : List (String × OptValue))
  | localErrorHandler (who : String) (e : Err)
  | cogSlashError (e : Err)
  | dispatchSlashCommandError (e : Err)
  | release
  | afterHooks
  | autocompleteResponse (choices : List String)

/-- The mutable per-call interaction state: the raw option tree (mutable,
because the childless-command branch of invoke renames keys in place on
inter.options), the guild identifier (none in a direct-message context),
the command_failed flag, and the focused option (name, partial value) used
only during autocomplete routing. -/
structure InterState where
  options : List (String × OptValue)
  guildId : Option Nat
  commandFailed : Bool
  focusedName : String
  focusedValue : String

/-- A registered autocompleter entry: the code probes callability at
runtime (if not callable, the entry itself is the static choices value;
otherwise it is called with the interaction and the partial user input and
may return no choices). -/
inductive Autocomp where
  | staticChoices (choices : List String)
  | fn (f : InterState → String → Option (List String))

/-- Result triple of running an embedded coroutine: final interaction
state, emitted event trace, and outcome. -/
abbrev InvokeRes := InterState × List Event × Outcome

/-- The connector renaming step for one (apiName, paramName) pair, from the
loop bodies at slash_core.py lines 209-211 and 483-485: if apiName is
present in the map, kwargs[paramName] = kwargs.pop(apiName). -/
def renameStep (kwargs : List (String × OptValue)) (conn : String × String) :
    List (String × OptValue) :=
  match dictGet conn.1 kwargs with
  | none => kwargs
  | some x => dictSet conn.2 x (dictPop conn.1 kwargs)

/-- The whole connector loop: fold renameStep over the connectors table in
order. -/
def applyConnectors (connectors : List (String × String))
    (kwargs : List (String × OptValue)) : List (String × OptValue) :=
  connectors.foldl renameStep kwargs

/-- Embedding of SubCommand (a Leaf): name, guild_only flag, its own
connectors and autocompleters tables, and the body behaviour (the callback,
as a function from the received keyword arguments to an outcome). -/
structure SubCmd where
  name : String
  guildOnly : Bool
  connectors : List (String × String)
  autocompleters : List (String × Autocomp)
  body : List (String × OptValue) → Outcome

/-- Embedding of SubCommandGroup (a Group): name, children map, and the
body behaviour of its own callback. -/
structure SubCmdGroup where
  name : String
  children : List (String × SubCmd)
  body : List (String × OptValue) → Outcome

/-- A child of the root command: either a Leaf or a Group. -/
inductive Child where
  | sub (s : SubCmd)
  | group (g : SubCmdGroup)

/-- The name of a child node. -/
def Child.name : Child → String
  | Child.sub s => s.name
  | Child.group g => g.name

/-- Embedding of InvokableSlashCommand: name, guild_only flag, connectors,
children, body behaviour, the outcome of the prepare hook (an external
collaborator from base_core, modelled as a behaviour field), whether a
concurrency limiter is attached, the autocompleters table, and the
optionally-overridden cog-level slash error handler with its behaviour. -/
structure Cmd where
  name : String
  guildOnly : Bool
  connectors : List (String × String)
  children : List (String × Child)
  body : List (String × OptValue) → Outcome
  prepareOutcome : Outcome
  hasMaxConcurrency : Bool
  autocompleters : List (String × Autocomp)
  cogHandler : Option (Err → Outcome)

/-- Embedding of SubCommand.invoke (slash_core.py lines 204-213): the
guild-only check with an ephemeral rejection message, then connector
renaming on the keyword-argument map received by the call (a fresh dict
produced by Python double-star unpacking at the call site, so the
interaction state is untouched), then resolve_param_kwargs (the external
argument binder, modelled as the identity binder and recorded as a
resolveParams event), then the base-class invoke, which forwards the
resolved keyword arguments to the callback. -/
def SubCmd.invoke (s : SubCmd) (st : InterState) (kwargs : List (String × OptValue)) :
    InvokeRes :=
  if s.guildOnly && st.guildId.isNone then
    (st, [Event.sendMessage "This command cannot be used in DMs" true], Outcome.ok)
  else
    let kw := applyConnectors s.connectors kwargs
    (st, [Event.resolveParams kw, Event.callBody s.name kw], s.body kw)

/-- Modelled from the spec: SubCommandGroup does not override invoke, so a
Group is invoked through InvokableApplicationCommand.invoke (base_core, not
part of this module), which forwards the given keyword arguments to the
handler body (spec section 6, outbound: invocation of handler bodies with
resolved keyword arguments; SubCommand.invoke relies on exactly this
forwarding when it calls super().invoke with the resolved kwargs). -/
def SubCmdGroup.invoke (g : SubCmdGroup) (st : InterState)
    (kwargs : List (String × OptValue)) : InvokeRes :=
  (st, [Event.callBody g.name kwargs], g.body kwargs)

/-- Dispatch on a child variant, as done by subcmd.invoke(inter, **kwargs)
at slash_core.py line 465 where subcmd may be a Leaf or a Group. -/
def Child.invokeAsSub : Child → InterState → List (String × OptValue) → InvokeRes
  | Child.sub s, st, kwargs => s.invoke st kwargs
  | Child.group g, st, kwargs => g.invoke st kwargs

/-- The try/except-CommandError pattern around each child invocation in
invoke_children (slash_core.py lines 456-468): on a domain-level command
error, deliver the error to the locally-registered handler of that node
(_call_local_error_handler, external delivery modelled as an event), then
re-raise it; every other outcome passes through unchanged. -/
def withLocalHandler (who : String) (r : InvokeRes) : InvokeRes :=
  match r with
  | (st, tr, Outcome.ok) => (st, tr, Outcome.ok)
  | (st, tr, Outcome.raise e) =>
      if e.isCommandError then
        (st, tr ++ [Event.localErrorHandler who e], Outcome.raise e)
      else (st, tr, Outcome.raise e)

/-- Embedding of InvokableSlashCommand.invoke_children (slash_core.py
lines 440-468): extract the route; resolve nothing for an empty path; for
a length-1 path look the name up among the children and invoke the match
(Leaf or Group) with the extracted leaf arguments; for a length-2 path the
first name must resolve to a SubCommandGroup (the assert fails with an
AssertionError otherwise, including when the name is unmatched), the Group
is invoked with no arguments, then the second name is looked up among its
children and the matched Leaf is invoked with the leaf arguments; a longer
path raises ValueError "Command chain is too long".  Each invocation is
wrapped by the local-error-handler pattern. -/
def Cmd.invoke_children (c : Cmd) (st : InterState) : InvokeRes :=
  match options_as_route st.options with
  | ([], _) => (st, [], Outcome.ok)
  | ([n1], kwargs) =>
      match dictGet n1 c.children with
      | none => (st, [], Outcome.ok)
      | some child => withLocalHandler child.name (child.invokeAsSub st kwargs)
  | ([n1, n2], kwargs) =>
      match dictGet n1 c.children with
      | some (Child.group g) =>
          match withLocalHandler g.name (g.invoke st []) with
          | (st1, tr1, Outcome.raise e) => (st1, tr1, Outcome.raise e)
          | (st1, tr1, Outcome.ok) =>
              match dictGet n2 g.children with
              | none => (st1, tr1, Outcome.ok)
              | some s =>
                  match withLocalHandler s.name (s.invoke st1 kwargs) with
                  | (st2, tr2, out2) => (st2, tr1 ++ tr2, out2)
      | _ => (st, [], Outcome.raise Err.assertionError)
  | (_ :: _ :: _ :: _, _) =>
      (st, [], Outcome.raise (Err.valueError "Command chain is too long"))

/-- The body of the try block of InvokableSlashCommand.invoke
(slash_core.py lines 478-487): with children, call the own body with no
arguments (await self(inter)) and then invoke_children; without children,
take the interaction option dict itself as the keyword-argument map
(kwargs = inter.options or empty), rename keys in place through the own
connectors table (the renaming mutates inter.options, which the map
aliases), run resolve_param_kwargs, and call the own body with the
result. -/
def Cmd.invokeDispatch (c : Cmd) (st : InterState) : InvokeRes :=
  if c.children.length > 0 then
    match c.body [] with
    | Outcome.raise e => (st, [Event.callBody c.name []], Outcome.raise e)
    | Outcome.ok =>
        match c.invoke_children st with
        | (st1, tr1, out1) => (st1, Event.callBody c.name [] :: tr1, out1)
  else
    let kw := applyConnectors c.connectors st.options
    let st1 : InterState := { st with options := kw }
    (st1, [Event.resolveParams kw, Event.callBody c.name kw], c.body kw)

/-- Embedding of InvokableSlashCommand.invoke (slash_core.py lines
470-501): the guild-only check with an ephemeral rejection message; the
prepare hook (outside the try block, so a failure there propagates raw and
skips the finally block); then the dispatch inside try/except/finally: a
CommandError sets command_failed and is re-raised unchanged, a
CancelledError sets command_failed and is swallowed (normal return), any
other exception sets command_failed and is wrapped into
CommandInvokeError; the finally block releases the concurrency slot when a
limiter is attached and then runs the after hooks, on every exit path of
the try block. -/
def Cmd.invoke (c : Cmd) (st : InterState) : InvokeRes :=
  if c.guildOnly && st.guildId.isNone then
    (st, [Event.sendMessage "This command cannot be used in DMs" true], Outcome.ok)
  else
    match c.prepareOutcome with
    | Outcome.raise e => (st, [Event.prepare], Outcome.raise e)
    | Outcome.ok =>
        match c.invokeDispatch st with
        | (st1, tr1, out1) =>
            let finTr := (if c.hasMaxConcurrency then [Event.release] else []) ++
              [Event.afterHooks]
            match out1 with
            | Outcome.ok => (st1, Event.prepare :: tr1 ++ finTr, Outcome.ok)
            | Outcome.raise e =>
                let st2 : InterState := { st1 with commandFailed := true }
                if e.isCommandError then
                  (st2, Event.prepare :: tr1 ++ finTr, Outcome.raise e)
                else if e = Err.cancelledError then
                  (st2, Event.prepare :: tr1 ++ finTr, Outcome.ok)
                else
                  (st2, Event.prepare :: tr1 ++ finTr,
                    Outcome.raise (Err.commandInvokeError e))

/-- Embedding of InvokableSlashCommand._call_external_error_handlers
(slash_core.py lines 393-401): when the cog overrides the cog-level slash
error handler, call it inside a try block whose finally clause dispatches
the slash_command_error event; the dispatch therefore happens exactly once
even when the cog handler itself raises, in which case that exception
propagates after the dispatch. -/
def Cmd.callExternalErrorHandlers (c : Cmd) (e : Err) : List Event × Outcome :=
  match c.cogHandler with
  | none => ([Event.dispatchSlashCommandError e], Outcome.ok)
  | some f =>
      match f e with
      | Outcome.ok =>
          ([Event.cogSlashError e, Event.dispatchSlashCommandError e], Outcome.ok)
      | Outcome.raise e2 =>
          ([Event.cogSlashError e, Event.dispatchSlashCommandError e],
            Outcome.raise e2)

/-- Modelled from the spec: the top-level driver of an invocation is the
surrounding bot machinery (not part of this module); per spec sections 4.5
and 6 it runs invoke and, when a domain-level command error escapes,
delivers it to _call_external_error_handlers exactly once per top-level
invocation. -/
def processInvocation (c : Cmd) (st : InterState) : InvokeRes :=
  match c.invoke st with
  | (st1, tr1, Outcome.raise e) =>
      if e.isCommandError then
        match c.callExternalErrorHandlers e with
        | (tr2, out2) => (st1, tr1 ++ tr2, out2)
      else (st1, tr1, Outcome.raise e)
  | (st1, tr1, Outcome.ok) => (st1, tr1, Outcome.ok)

/-- Embedding of _call_autocompleter (slash_core.py lines 193-202 and
403-412, identical on SubCommand and InvokableSlashCommand, here
parameterised by the autocompleters table): no registered entry yields no
choices; a non-callable entry is returned as the static choices value; a
callable entry is called with the interaction and the partial input. -/
def callAutocompleter (table : List (String × Autocomp)) (st : InterState)
    (param : String) (userInput : String) : Option (List String) :=
  match dictGet param table with
  | none => none
  | some (Autocomp.staticChoices cs) => some cs
  | some (Autocomp.fn f) => f st userInput

/-- Embedding of _call_relevant_autocompleter (slash_core.py lines
414-438): resolve the responsible node from the route (for a length-2 path
the first name is asserted to resolve to a SubCommandGroup; a longer path
raises ValueError); when no Leaf is resolved (empty path, unmatched name,
partially-matched path, or a Group match) the root command autocompleter
table is used, otherwise the resolved Leaf table; the focused option name
and partial value select the autocompleter, and a non-none choices result
is delivered through the response channel. -/
def Cmd.callRelevantAutocompleter (c : Cmd) (st : InterState) :
    List Event × Outcome :=
  match (options_as_route st.options).1 with
  | [] =>
      match callAutocompleter c.autocompleters st st.focusedName st.focusedValue with
      | none => ([], Outcome.ok)
      | some cs => ([Event.autocompleteResponse cs], Outcome.ok)
  | [n1] =>
      let table :=
        match dictGet n1 c.children with
        | some (Child.sub s) => s.autocompleters
        | _ => c.autocompleters
      match callAutocompleter table st st.focusedName st.focusedValue with
      | none => ([], Outcome.ok)
      | some cs => ([Event.autocompleteResponse cs], Outcome.ok)
  | [n1, n2] =>
      match dictGet n1 c.children with
      | some (Child.group g) =>
          let table :=
            match dictGet n2 g.children with
            | some s => s.autocompleters
            | none => c.autocompleters
          match callAutocompleter table st st.focusedName st.focusedValue with
          | none => ([], Outcome.ok)
          | some cs => ([Event.autocompleteResponse cs], Outcome.ok)
      | _ => ([], Outcome.raise Err.assertionError)
  | _ :: _ :: _ :: _ =>
      ([], Outcome.raise (Err.valueError "Command chain is too long"))

/-- Plain dispatch-step events: messages, binder calls and body calls
(no hook, release or error-notification events). -/
def Event.isPlainStep : Event → Bool
  | Event.sendMessage _ _ => true
  | Event.resolveParams _ => true
  | Event.callBody _ _ => true
  | _ => false

/-- Dispatch-step events including local error handler delivery. -/
def Event.isDispatchStep : Event → Bool
  | Event.sendMessage _ _ => true
  | Event.resolveParams _ => true
  | Event.callBody _ _ => true
  | Event.localErrorHandler _ _ => true
  | _ => false

/-- Error-notification events: local handlers, the cog-level handler and
the global slash_command_error dispatch. -/
def Event.isNotification : Event → Bool
  | Event.localErrorHandler _ _ => true
  | Event.cogSlashError _ => true
  | Event.dispatchSlashCommandError _ => true
  | _ => false

/-- Local error handler delivery events. -/
def Event.isLocalHandler : Event → Bool
  | Event.localErrorHandler _ _ => true
  | _ => false

/-- Global fallback (slash_command_error dispatch) events. -/
def Event.isGlobalDispatch : Event → Bool
  | Event.dispatchSlashCommandError _ => true
  | _ => false

lemma subCmd_invoke_events (s : SubCmd) (st : InterState)
    (kwargs : List (String × OptValue)) :
    ∀ ev ∈ (s.invoke st kwargs).2.1, ev.isPlainStep = true := by
  intro ev hev
  unfold SubCmd.invoke at hev
  split at hev
  · simp only [List.mem_singleton] at hev
    subst hev; rfl
  · simp only [List.mem_cons, List.not_mem_nil, or_false] at hev
    rcases hev with h | h <;> subst h <;> rfl

lemma subCmdGroup_invoke_events (g : SubCmdGroup) (st : InterState)
    (kwargs : List (String × OptValue)) :
    ∀ ev ∈ (g.invoke st kwargs).2.1, ev.isPlainStep = true := by
  intro ev hev
  unfold SubCmdGroup.invoke at hev
  simp only [List.mem_singleton] at hev
  subst hev; rfl

lemma child_invokeAsSub_events (child : Child) (st : InterState)
    (kwargs : List (String × OptValue)) :
    ∀ ev ∈ (child.invokeAsSub st kwargs).2.1, ev.isPlainStep = true := by
  cases child with
  | sub s => exact subCmd_invoke_events s st kwargs
  | group g => exact subCmdGroup_invoke_events g st kwargs

lemma isPlainStep_isDispatchStep {ev : Event} (h : ev.isPlainStep = true) :
    ev.isDispatchStep = true := by
  cases ev <;> simp_all [Event.isPlainStep, Event.isDispatchStep]

lemma isPlainStep_not_notification {ev : Event} (h : ev.isPlainStep = true) :
    ev.isNotification = false := by
  cases ev <;> simp_all [Event.isPlainStep, Event.isNotification]

lemma isDispatchStep_not_release_afterHooks {ev : Event}
    (h : ev.isDispatchStep = true) :
    ev ≠ Event.release ∧ ev ≠ Event.afterHooks := by
  cases ev <;> simp_all [Event.isDispatchStep]

lemma isDispatchStep_not_globalDispatch {ev : Event}
    (h : ev.isDispatchStep = true) : ev.isGlobalDispatch = false := by
  cases ev <;> simp_all [Event.isDispatchStep, Event.isGlobalDispatch]

lemma withLocalHandler_outcome_ok (who : String) (r : InvokeRes)
    (h : r.2.2 = Outcome.ok) : withLocalHandler who r = r := by
  obtain ⟨st, tr, out⟩ := r
  simp only at h
  subst h
  rfl

lemma withLocalHandler_outcome_cmdErr (who : String) (r : InvokeRes) (e : Err)
    (h : r.2.2 = Outcome.raise e) (hc : e.isCommandError = true) :
    withLocalHandler who r =
      (r.1, r.2.1 ++ [Event.localErrorHandler who e], Outcome.raise e) := by
  obtain ⟨st, tr, out⟩ := r
  simp only at h
  subst h
  simp [withLocalHandler, hc]

lemma withLocalHandler_outcome_other (who : String) (r : InvokeRes) (e : Err)
    (h : r.2.2 = Outcome.raise e) (hc : e.isCommandError = false) :
    withLocalHandler who r = r := by
  obtain ⟨st, tr, out⟩ := r
  simp only at h
  subst h
  simp [withLocalHandler, hc]

lemma withLocalHandler_events (who : String) (r : InvokeRes)
    (h : ∀ ev ∈ r.2.1, ev.isPlainStep = true) :
    ∀ ev ∈ (withLocalHandler who r).2.1, ev.isDispatchStep = true := by
  intro ev hev
  obtain ⟨st, tr, out⟩ := r
  unfold withLocalHandler at hev
  cases out with
  | ok => exact isPlainStep_isDispatchStep (h ev hev)
  | raise e =>
      simp only at hev
      split at hev
      · simp only [List.mem_append, List.mem_singleton] at hev
        rcases hev with hev | hev
        · exact isPlainStep_isDispatchStep (h ev hev)
        · subst hev; rfl
      · exact isPlainStep_isDispatchStep (h ev hev)

lemma withLocalHandler_ok_inv (who : String) (r : InvokeRes) (st1 : InterState)
    (tr : List Event) (h : withLocalHandler who r = (st1, tr, Outcome.ok)) :
    r = (st1, tr, Outcome.ok) := by
  obtain ⟨st0, tr0, out0⟩ := r
  cases out0 with
  | ok => simpa [withLocalHandler] using h
  | raise e =>
      cases he : e.isCommandError <;> simp [withLocalHandler, he] at h

lemma withLocalHandler_raise_inv (who : String) (r : InvokeRes)
    (st1 : InterState) (tr : List Event) (e : Err)
    (h : withLocalHandler who r = (st1, tr, Outcome.raise e)) :
    r.2.2 = Outcome.raise e ∧
      (e.isCommandError = true →
        r.1 = st1 ∧ tr = r.2.1 ++ [Event.localErrorHandler who e]) ∧
      (e.isCommandError = false → r = (st1, tr, Outcome.raise e)) := by
  obtain ⟨st0, tr0, out0⟩ := r
  cases out0 with
  | ok => simp [withLocalHandler] at h
  | raise e0 =>
      cases he : e0.isCommandError with
      | false =>
          simp only [withLocalHandler, he, Bool.false_eq_true, if_false,
            Prod.mk.injEq, Outcome.raise.injEq] at h
          obtain ⟨h1, h2, h3⟩ := h
          subst h1 h2 h3
          simp [he]
      | true =>
          simp only [withLocalHandler, he, if_true, Prod.mk.injEq,
            Outcome.raise.injEq] at h
          obtain ⟨h1, h2, h3⟩ := h
          subst h1 h2 h3
          simp [he]

lemma invoke_children_events (c : Cmd) (st : InterState) :
    ∀ ev ∈ (c.invoke_children st).2.1, ev.isDispatchStep = true := by
  intro ev hev
  unfold Cmd.invoke_children at hev
  split at hev
  · simp at hev
  · rename_i n1 kwargs hroute
    split at hev
    · simp at hev
    · exact withLocalHandler_events _ _ (child_invokeAsSub_events _ _ _) ev hev
  · rename_i n1 n2 kwargs hroute
    split at hev
    · rename_i g hg
      split at hev
      · rename_i st1 tr1 e heq
        have hall := withLocalHandler_events g.name (g.invoke st [])
          (subCmdGroup_invoke_events g st [])
        rw [heq] at hall
        exact hall ev hev
      · rename_i st1 tr1 heq
        have hall := withLocalHandler_events g.name (g.invoke st [])
          (subCmdGroup_invoke_events g st [])
        rw [heq] at hall
        split at hev
        · exact hall ev hev
        · rename_i s hs
          split at hev
          rename_i st2 tr2 out2 heq2
          have hall2 := withLocalHandler_events s.name (s.invoke st1 kwargs)
            (subCmd_invoke_events s st1 kwargs)
          rw [heq2] at hall2
          simp only [List.mem_append] at hev
          rcases hev with hev | hev
          · exact hall ev hev
          · exact hall2 ev hev
    · simp at hev
  · simp at hev

lemma invoke_children_raise_clean (c : Cmd) (st st1 : InterState)
    (tr : List Event) (e : Err)
    (h : c.invoke_children st = (st1, tr, Outcome.raise e))
    (hc : e.isCommandError = false) :
    ∀ ev ∈ tr, ev.isNotification = false := by
  intro ev hev
  unfold Cmd.invoke_children at h
  split at h
  · simp at h
  · rename_i n1 kwargs hroute
    split at h
    · simp at h
    · rename_i child hchild
      have hinv := withLocalHandler_raise_inv child.name _ st1 tr e h
      have hr := hinv.2.2 hc
      have hall := child_invokeAsSub_events child st kwargs
      rw [hr] at hall
      exact isPlainStep_not_notification (hall ev hev)
  · rename_i n1 n2 kwargs hroute
    split at h
    · rename_i g hg
      split at h
      · rename_i st1a tr1 ea heq
        simp only [Prod.mk.injEq, Outcome.raise.injEq] at h
        obtain ⟨h1, h2, h3⟩ := h
        rw [h3] at heq
        rw [← h2] at hev
        have hinv := withLocalHandler_raise_inv g.name _ st1a tr1 e heq
        have hr := hinv.2.2 hc
        have hall := subCmdGroup_invoke_events g st []
        rw [hr] at hall
        exact isPlainStep_not_notification (hall ev hev)
      · rename_i st1a tr1 heq
        have hgr := withLocalHandler_ok_inv g.name _ st1a tr1 heq
        have hall1 := subCmdGroup_invoke_events g st []
        rw [hgr] at hall1
        split at h
        · simp at h
        · rename_i s hs
          split at h
          rename_i st2 tr2 out2 heq2
          simp only [Prod.mk.injEq] at h
          obtain ⟨h1, h2, h3⟩ := h
          rw [h3] at heq2
          rw [← h2] at hev
          have hinv := withLocalHandler_raise_inv s.name _ st2 tr2 e heq2
          have hr := hinv.2.2 hc
          have hall2 := subCmd_invoke_events s st1a kwargs
          rw [hr] at hall2
          simp only [List.mem_append] at hev
          rcases hev with hev | hev
          · exact isPlainStep_not_notification (hall1 ev hev)
          · exact isPlainStep_not_notification (hall2 ev hev)
    · simp only [Prod.mk.injEq] at h
      obtain ⟨h1, h2, h3⟩ := h
      rw [← h2] at hev
      simp at hev
  · simp only [Prod.mk.injEq] at h
    obtain ⟨h1, h2, h3⟩ := h
    rw [← h2] at hev
    simp at hev

lemma invokeDispatch_events (c : Cmd) (st : InterState) :
    ∀ ev ∈ (c.invokeDispatch st).2.1, ev.isDispatchStep = true := by
  intro ev hev
  unfold Cmd.invokeDispatch at hev
  split at hev
  · split at hev
    · simp only [List.mem_singleton] at hev
      subst hev; rfl
    · rename_i heq
      split at hev
      rename_i st1 tr1 out1 heq1
      simp only [List.mem_cons] at hev
      rcases hev with hev | hev
      · subst hev; rfl
      · have hall := invoke_children_events c st
        rw [heq1] at hall
        exact hall ev hev
  · simp only [List.mem_cons, List.not_mem_nil, or_false] at hev
    rcases hev with hev | hev <;> (subst hev; rfl)

lemma dictGet_dictSet_self {α : Type} (k : String) (x : α)
    (d : List (String × α)) : dictGet k (dictSet k x d) = some x := by
  induction d with
  | nil => simp [dictGet, dictSet]
  | cons p rest ih =>
      obtain ⟨k1, v1⟩ := p
      by_cases h : k1 = k
      · subst h
        simp [dictGet, dictSet]
      · simp [dictGet, dictSet, h, ih]

lemma dictGet_dictSet_ne {α : Type} (k v : String) (x : α)
    (d : List (String × α)) (hne : k ≠ v) :
    dictGet k (dictSet v x d) = dictGet k d := by
  have hvk : ¬v = k := fun h => hne h.symm
  induction d with
  | nil => simp [dictGet, dictSet, hvk]
  | cons p rest ih =>
      obtain ⟨k1, v1⟩ := p
      by_cases h : k1 = v
      · subst h
        simp [dictGet, dictSet, hvk]
      · simp only [dictSet, if_neg h]
        by_cases h2 : k1 = k
        · simp [dictGet, h2]
        · simp [dictGet, h2, ih]

lemma dictGet_eq_none_of_not_mem {α : Type} (k : String)
    (d : List (String × α)) (h : k ∉ d.map Prod.fst) : dictGet k d = none := by
  induction d with
  | nil => rfl
  | cons p rest ih =>
      obtain ⟨k1, v1⟩ := p
      simp only [List.map_cons, List.mem_cons, not_or] at h
      have h1 : ¬k1 = k := fun hh => h.1 hh.symm
      simp [dictGet, h1, ih h.2]

lemma dictGet_dictPop_self {α : Type} (k : String) (d : List (String × α))
    (hnd : (d.map Prod.fst).Nodup) : dictGet k (dictPop k d) = none := by
  induction d with
  | nil => rfl
  | cons p rest ih =>
      obtain ⟨k1, v1⟩ := p
      simp only [List.map_cons, List.nodup_cons] at hnd
      by_cases h : k1 = k
      · subst h
        simp only [dictPop, if_pos rfl]
        exact dictGet_eq_none_of_not_mem k1 rest hnd.1
      · simp [dictPop, dictGet, h, ih hnd.2]

/-- The routing body of invoke_children, with the already-extracted route
made explicit (proved equal to Cmd.invoke_children below; used to reduce
the dispatch under a hypothesis about the extracted route). -/
def routeCases (c : Cmd) (st : InterState) (chain : List String)
    (kwargs : List (String × OptValue)) : InvokeRes :=
  match chain with
  | [] => (st, [], Outcome.ok)
  | [n1] =>
      match dictGet n1 c.children with
      | none => (st, [], Outcome.ok)
      | some child => withLocalHandler child.name (child.invokeAsSub st kwargs)
  | [n1, n2] =>
      match dictGet n1 c.children with
      | some (Child.group g) =>
          match withLocalHandler g.name (g.invoke st []) with
          | (st1, tr1, Outcome.raise e) => (st1, tr1, Outcome.raise e)
          | (st1, tr1, Outcome.ok) =>
              match dictGet n2 g.children with
              | none => (st1, tr1, Outcome.ok)
              | some s =>
                  match withLocalHandler s.name (s.invoke st1 kwargs) with
                  | (st2, tr2, out2) => (st2, tr1 ++ tr2, out2)
      | _ => (st, [], Outcome.raise Err.assertionError)
  | _ :: _ :: _ :: _ =>
      (st, [], Outcome.raise (Err.valueError "Command chain is too long"))

lemma invoke_children_eq_routeCases (c : Cmd) (st : InterState) :
    c.invoke_children st =
      routeCases c st (options_as_route st.options).1
        (options_as_route st.options).2 := by
  unfold Cmd.invoke_children routeCases
  rcases h : options_as_route st.options with ⟨chain, kwargs⟩
  match chain with
  | [] => rfl
  | [n1] => rfl
  | [n1, n2] => rfl
  | _ :: _ :: _ :: _ => rfl

lemma invokeDispatch_raise_clean (c : Cmd) (st st1 : InterState)
    (tr : List Event) (e : Err)
    (h : c.invokeDispatch st = (st1, tr, Outcome.raise e))
    (hc : e.isCommandError = false) :
    ∀ ev ∈ tr, ev.isNotification = false := by
  intro ev hev
  unfold Cmd.invokeDispatch at h
  split at h
  · split at h
    · simp only [Prod.mk.injEq] at h
      obtain ⟨h1, h2, h3⟩ := h
      subst h1 h2
      simp only [List.mem_singleton] at hev
      subst hev; rfl
    · split at h
      rename_i st1a tr1 out1 heq1
      simp only [Prod.mk.injEq] at h
      obtain ⟨h1, h2, h3⟩ := h
      rw [h3] at heq1
      rw [← h2] at hev
      simp only [List.mem_cons] at hev
      rcases hev with hev | hev
      · subst hev; rfl
      · exact invoke_children_raise_clean c st st1a tr1 e heq1 hc ev hev
  · simp only [Prod.mk.injEq] at h
    obtain ⟨h1, h2, h3⟩ := h
    rw [← h2] at hev
    simp only [List.mem_cons, List.not_mem_nil, or_false] at hev
    rcases hev with hev | hev <;> (subst hev; rfl)

/-- Release events. -/
def Event.isRelease : Event → Bool
  | Event.release => true
  | _ => false

/-- After-hooks events. -/
def Event.isAfterHooks : Event → Bool
  | Event.afterHooks => true
  | _ => false

lemma isPlainStep_not_localHandler {ev : Event} (h : ev.isPlainStep = true) :
    ev.isLocalHandler = false := by
  cases ev <;> simp_all [Event.isPlainStep, Event.isLocalHandler]

lemma invoke_ok_case (c : Cmd) (st : InterState)
    (hpass : (c.guildOnly && st.guildId.isNone) = false)
    (hprep : c.prepareOutcome = Outcome.ok)
    (st1 : InterState) (tr1 : List Event)
    (hd : c.invokeDispatch st = (st1, tr1, Outcome.ok)) :
    c.invoke st =
      (st1, Event.prepare :: tr1 ++
        ((if c.hasMaxConcurrency then [Event.release] else []) ++
          [Event.afterHooks]), Outcome.ok) := by
  unfold Cmd.invoke
  rw [hpass, hprep, hd]
  rfl

lemma invoke_raise_case (c : Cmd) (st : InterState)
    (hpass : (c.guildOnly && st.guildId.isNone) = false)
    (hprep : c.prepareOutcome = Outcome.ok)
    (st1 : InterState) (tr1 : List Event) (e : Err)
    (hd : c.invokeDispatch st = (st1, tr1, Outcome.raise e)) :
    c.invoke st =
      (if e.isCommandError then
        ({ st1 with commandFailed := true }, Event.prepare :: tr1 ++
          ((if c.hasMaxConcurrency then [Event.release] else []) ++
            [Event.afterHooks]), Outcome.raise e)
      else if e = Err.cancelledError then
        ({ st1 with commandFailed := true }, Event.prepare :: tr1 ++
          ((if c.hasMaxConcurrency then [Event.release] else []) ++
            [Event.afterHooks]), Outcome.ok)
      else
        ({ st1 with commandFailed := true }, Event.prepare :: tr1 ++
          ((if c.hasMaxConcurrency then [Event.release] else []) ++
            [Event.afterHooks]),
          Outcome.raise (Err.commandInvokeError e))) := by
  unfold Cmd.invoke
  rw [hpass, hprep, hd]
  rfl

lemma invoke_trace_eq (c : Cmd) (st : InterState)
    (hpass : (c.guildOnly && st.guildId.isNone) = false)
    (hprep : c.prepareOutcome = Outcome.ok)
    (st1 : InterState) (tr1 : List Event) (out1 : Outcome)
    (hd : c.invokeDispatch st = (st1, tr1, out1)) :
    (c.invoke st).2.1 = Event.prepare :: tr1 ++
      ((if c.hasMaxConcurrency then [Event.release] else []) ++
        [Event.afterHooks]) := by
  cases out1 with
  | ok => rw [invoke_ok_case c st hpass hprep st1 tr1 hd]
  | raise e =>
      rw [invoke_raise_case c st hpass hprep st1 tr1 e hd]
      split
      · rfl
      · split <;> rfl

lemma invoke_children_long (c : Cmd) (st : InterState)
    (hlong : 2 < (options_as_route st.options).1.length) :
    c.invoke_children st =
      (st, [], Outcome.raise (Err.valueError "Command chain is too long")) := by
  rw [invoke_children_eq_routeCases]
  rcases h : (options_as_route st.options).1 with _ | ⟨a, _ | ⟨b, _ | ⟨d, rest⟩⟩⟩
  · rw [h] at hlong; simp at hlong
  · rw [h] at hlong; simp at hlong
  · rw [h] at hlong; simp at hlong
  · rfl

lemma invokeDispatch_children_ok (c : Cmd) (st : InterState)
    (hch : 0 < c.children.length) (hbody : c.body [] = Outcome.ok) :
    c.invokeDispatch st =
      ((c.invoke_children st).1,
        Event.callBody c.name [] :: (c.invoke_children st).2.1,
        (c.invoke_children st).2.2) := by
  unfold Cmd.invokeDispatch
  rw [if_pos hch, hbody]

lemma options_as_route_chain_le (d : Nat) :
    ∀ opts, treeDepthLe d opts = true → (options_as_route opts).1.length ≤ d := by
  induction d with
  | zero =>
      intro opts h
      match opts with
      | [] => simp [options_as_route]
      | (name, OptValue.scalar v) :: rest => simp [options_as_route]
      | (name, OptValue.nested o) :: rest => simp [treeDepthLe] at h
  | succ d ih =>
      intro opts h
      match opts with
      | [] => simp [options_as_route]
      | (name, OptValue.scalar v) :: rest => simp [options_as_route]
      | (name, OptValue.nested o) :: rest =>
          simp only [treeDepthLe, Bool.and_eq_true] at h
          simp only [options_as_route, List.length_cons]
          exact Nat.succ_le_succ (ih o h.1)

/-- Claim C5: options_as_route returns ((), ()) on the empty tree, recurses
into the first entry when its value is a nested mapping (prepending the
current key to the path), otherwise returns the whole tree as the flat
leaf-argument map with an empty path, and on every tree nested at most 2
levels the path has length at most 2.  The embedded function is pure, as
is the source (it only reads its input), so the input is never mutated; in
the flat case the returned leaf-argument map is the input itself,
unchanged. -/
theorem C5_options_as_route_spec :
    (options_as_route ([] : List (String × OptValue)) = ([], []) ∧
      (∀ (name : String) (value rest : List (String × OptValue)),
        options_as_route ((name, OptValue.nested value) :: rest) =
          (name :: (options_as_route value).1, (options_as_route value).2)) ∧
      (∀ (name : String) (v : Int) (rest : List (String × OptValue)),
        options_as_route ((name, OptValue.scalar v) :: rest) =
          ([], (name, OptValue.scalar v) :: rest))) ∧
    (∀ opts : List (String × OptValue),
      treeDepthLe 2 opts = true → (options_as_route opts).1.length ≤ 2) := by
  refine ⟨⟨by simp [options_as_route], ?_, ?_⟩, ?_⟩
  · intro name value rest
    simp [options_as_route]
  · intro name v rest
    simp [options_as_route]
  · exact options_as_route_chain_le 2

theorem C5_witness :
    treeDepthLe 2 [("g", OptValue.nested [("s", OptValue.nested
      [("x", OptValue.scalar 5)])])] = true ∧
    (options_as_route [("g", OptValue.nested [("s", OptValue.nested
      [("x", OptValue.scalar 5)])])]).1.length ≤ 2 :=
  ⟨by simp [treeDepthLe], C5_options_as_route_spec.2 _ (by simp [treeDepthLe])⟩

/-- Claim C8: a guild-only command invoked with no guild identifier sends
exactly one ephemeral rejection message and returns: the trace holds that
single sendMessage event (no prepare, body, after-hook, child or
error-handling event), the outcome is a normal return, and the interaction
state — including the command_failed flag and the option tree — is
returned unchanged. -/
theorem C8_guild_only_rejection (c : Cmd) (st : InterState)
    (hg : c.guildOnly = true) (hd : st.guildId = none) :
    c.invoke st =
      (st, [Event.sendMessage "This command cannot be used in DMs" true],
        Outcome.ok) := by
  unfold Cmd.invoke
  rw [hg, hd]
  rfl

def c8cmd : Cmd :=
  ⟨"c8", true, [], [], fun _ => Outcome.ok, Outcome.ok, true, [], none⟩

def st8 : InterState := ⟨[("x", OptValue.scalar 1)], none, false, "", ""⟩

theorem C8_witness :
    c8cmd.invoke st8 =
      (st8, [Event.sendMessage "This command cannot be used in DMs" true],
        Outcome.ok) :=
  C8_guild_only_rejection c8cmd st8 rfl rfl

def cex3grp : SubCmdGroup := ⟨"g", [], fun _ => Outcome.ok⟩

def cex3 : Cmd :=
  ⟨"root", false, [], [("g", Child.group cex3grp)],
    fun _ => Outcome.ok, Outcome.ok, false, [], none⟩

def stx3 : InterState :=
  ⟨[("a", OptValue.nested [("b", OptValue.nested [("c", OptValue.nested [])])])],
    some 1, false, "", ""⟩

/-- Claim C3 counterexample: on a command with children and an option tree
nested 3 levels, invoke does fail with the chain-too-long structural error
(wrapped into CommandInvokeError at the invoke boundary), but a handler
body — the root command own body, called by invoke before invoke_children
extracts the route — IS invoked before that failure, refuting the part of
the claim that says no handler body, including the root command own body,
is invoked before the failure. -/
theorem C3_counterexample :
    Event.callBody "root" [] ∈ (cex3.invoke stx3).2.1 ∧
    (cex3.invoke stx3).2.2 =
      Outcome.raise (Err.commandInvokeError
        (Err.valueError "Command chain is too long")) := by
  have h : cex3.invoke stx3 =
      ({ stx3 with commandFailed := true },
        [Event.prepare, Event.callBody "root" [], Event.afterHooks],
        Outcome.raise (Err.commandInvokeError
          (Err.valueError "Command chain is too long"))) := by
    simp [Cmd.invoke, Cmd.invokeDispatch, Cmd.invoke_children, options_as_route,
      cex3, stx3, Err.isCommandError]
  rw [h]
  exact ⟨by simp, rfl⟩

/-- Claim C3 (amended): for every option tree nested more than 2 levels,
invoking a command with children fails with the chain-too-long structural
routing error (ValueError, wrapped into CommandInvokeError at the invoke
boundary), the context is marked failed, and no child handler body is
invoked — but the root command own body is invoked (as shared setup)
before the routing failure, so the trace holds exactly the prepare hook,
the root body call, and the finally-block events. -/
theorem C3_deep_tree_amended (c : Cmd) (st : InterState)
    (hpass : (c.guildOnly && st.guildId.isNone) = false)
    (hprep : c.prepareOutcome = Outcome.ok)
    (hch : 0 < c.children.length)
    (hbody : c.body [] = Outcome.ok)
    (hlong : 2 < (options_as_route st.options).1.length) :
    c.invoke st =
      ({ st with commandFailed := true },
        Event.prepare :: Event.callBody c.name [] ::
          ((if c.hasMaxConcurrency then [Event.release] else []) ++
            [Event.afterHooks]),
        Outcome.raise (Err.commandInvokeError
          (Err.valueError "Command chain is too long"))) := by
  have hic := invoke_children_long c st hlong
  have hd := invokeDispatch_children_ok c st hch hbody
  rw [hic] at hd
  rw [invoke_raise_case c st hpass hprep _ _ _ hd]
  simp [Err.isCommandError]

theorem C3_witness :
    cex3.invoke stx3 =
      ({ stx3 with commandFailed := true },
        Event.prepare :: Event.callBody cex3.name [] ::
          ((if cex3.hasMaxConcurrency then [Event.release] else []) ++
            [Event.afterHooks]),
        Outcome.raise (Err.commandInvokeError
          (Err.valueError "Command chain is too long"))) :=
  C3_deep_tree_amended cex3 stx3 rfl rfl (by decide) rfl
    (by simp [options_as_route, stx3])

def c9sub : SubCmd := ⟨"s", false, [], [], fun _ => Outcome.ok⟩

def c9grp : SubCmdGroup := ⟨"g", [("s", c9sub)], fun _ => Outcome.ok⟩

def c9cmd : Cmd :=
  ⟨"root", false, [], [("g", Child.group c9grp)],
    fun _ => Outcome.ok, Outcome.ok, false, [], none⟩

def st9 : InterState :=
  ⟨[("g", OptValue.nested [("x", OptValue.scalar 5)])], some 1, false, "", ""⟩

/-- Claim C9 counterexample: when a length-1 path resolves to a Group
child, invoke_children calls the invoke of that child with the extracted
leaf-argument map forwarded as keyword arguments, so with the non-empty
map x=5 the Group body receives x=5 — refuting the part of the claim that
says the Group body is invoked with no arguments even when the extracted
leaf-argument map is non-empty.  Dispatch does stop there: the trace shows
no Leaf invocation. -/
theorem C9_counterexample :
    c9cmd.invoke_children st9 =
      (st9, [Event.callBody "g" [("x", OptValue.scalar 5)]], Outcome.ok) ∧
    [("x", OptValue.scalar 5)] ≠ ([] : List (String × OptValue)) := by
  constructor
  · simp [Cmd.invoke_children, options_as_route, c9cmd, c9grp, c9sub, st9,
      withLocalHandler, Child.invokeAsSub, Child.name, SubCmdGroup.invoke,
      dictGet]
  · simp

/-- Claim C9 (amended): for every length-1 path whose name resolves to a
Group child in invoke_children, the invoke of that Group is called with
the extracted flat leaf-argument map forwarded as keyword arguments (its
body receives those kwargs, no arguments only when the map is empty), and
dispatch then stops: no Leaf is invoked, as the trace holds exactly the
one Group body call. -/
theorem C9_group_dead_end_amended (c : Cmd) (st : InterState) (n : String)
    (g : SubCmdGroup) (kwargs : List (String × OptValue))
    (hroute : options_as_route st.options = ([n], kwargs))
    (hchild : dictGet n c.children = some (Child.group g))
    (hbody : g.body kwargs = Outcome.ok) :
    c.invoke_children st = (st, [Event.callBody g.name kwargs], Outcome.ok) := by
  rw [invoke_children_eq_routeCases, hroute]
  simp only [routeCases, hchild]
  simp [withLocalHandler, Child.invokeAsSub, Child.name, SubCmdGroup.invoke,
    hbody]

theorem C9_witness :
    c9cmd.invoke_children st9 =
      (st9, [Event.callBody c9grp.name [("x", OptValue.scalar 5)]],
        Outcome.ok) :=
  C9_group_dead_end_amended c9cmd st9 "g" c9grp [("x", OptValue.scalar 5)]
    (by simp [options_as_route, st9]) rfl rfl

def c7cmd : Cmd :=
  ⟨"root", false, [], [], fun _ => Outcome.ok, Outcome.ok, false,
    [("x", Autocomp.staticChoices ["hello", "help"])], none⟩

def st7 : InterState :=
  ⟨[("g", OptValue.nested [("s", OptValue.nested [])])], some 1, false,
    "x", "he"⟩

/-- Claim C7 concerns a code bug: on a length-2 path whose first name is
unmatched among the children (here a root with no children at all, with an
autocompleter for the focused option registered on the root), the
assertion in _call_relevant_autocompleter that the first name resolves to
a SubCommandGroup fails, raising AssertionError instead of falling back to
the root command autocompleter table as the claim (and the spec, and the
guard "if group is not None" on the very next line of the source) say. -/
theorem C7_autocomplete_assert_fails :
    c7cmd.callRelevantAutocompleter st7 =
      ([], Outcome.raise Err.assertionError) := by
  simp [Cmd.callRelevantAutocompleter, options_as_route, c7cmd, st7, dictGet]

/-- Claim C1: exception translation at the outermost scope of invoke, for
an invocation that passes the guild-only check and the prepare hook and
whose dispatched body raises: a CommandError sets the command_failed flag
and is re-raised unchanged; a CancelledError sets the flag and is
swallowed — invoke returns normally and no error handler, cog handler or
global fallback notification appears anywhere in the trace; any other
exception sets the flag and propagates wrapped into a CommandInvokeError
carrying the original exception as its cause.  In every case the finally
block (release when a limiter is attached, then after hooks) still runs. -/
theorem C1_exception_translation (c : Cmd) (st st1 : InterState)
    (tr1 : List Event) (e : Err)
    (hpass : (c.guildOnly && st.guildId.isNone) = false)
    (hprep : c.prepareOutcome = Outcome.ok)
    (hd : c.invokeDispatch st = (st1, tr1, Outcome.raise e)) :
    (e.isCommandError = true →
      c.invoke st = ({ st1 with commandFailed := true },
        Event.prepare :: tr1 ++
          ((if c.hasMaxConcurrency then [Event.release] else []) ++
            [Event.afterHooks]),
        Outcome.raise e)) ∧
    (e = Err.cancelledError →
      c.invoke st = ({ st1 with commandFailed := true },
        Event.prepare :: tr1 ++
          ((if c.hasMaxConcurrency then [Event.release] else []) ++
            [Event.afterHooks]),
        Outcome.ok) ∧
      ∀ ev ∈ (c.invoke st).2.1, ev.isNotification = false) ∧
    (e.isCommandError = false → e ≠ Err.cancelledError →
      c.invoke st = ({ st1 with commandFailed := true },
        Event.prepare :: tr1 ++
          ((if c.hasMaxConcurrency then [Event.release] else []) ++
            [Event.afterHooks]),
        Outcome.raise (Err.commandInvokeError e))) := by
  have hr := invoke_raise_case c st hpass hprep st1 tr1 e hd
  refine ⟨?_, ?_, ?_⟩
  · intro hc
    rw [hr, if_pos hc]
  · intro hcan
    subst hcan
    have hnc : Err.cancelledError.isCommandError = false := rfl
    have heq : c.invoke st = ({ st1 with commandFailed := true },
        Event.prepare :: tr1 ++
          ((if c.hasMaxConcurrency then [Event.release] else []) ++
            [Event.afterHooks]),
        Outcome.ok) := by
      rw [hr]
      simp [Err.isCommandError]
    refine ⟨heq, ?_⟩
    rw [heq]
    intro ev hev
    have hsplit : ev = Event.prepare ∨ ev ∈ tr1 ∨
        ev ∈ ((if c.hasMaxConcurrency then [Event.release] else []) ++
          [Event.afterHooks]) := by
      rcases List.mem_cons.mp hev with h | h
      · exact Or.inl h
      · rcases List.mem_append.mp h with h | h
        · exact Or.inr (Or.inl h)
        · exact Or.inr (Or.inr h)
    rcases hsplit with h | h | h
    · subst h; rfl
    · exact invokeDispatch_raise_clean c st st1 tr1 _ hd hnc ev h
    · rcases List.mem_append.mp h with h | h
      · cases hmc : c.hasMaxConcurrency with
        | true =>
            rw [hmc] at h
            simp only [if_true, List.mem_singleton] at h
            subst h; rfl
        | false =>
            rw [hmc] at h
            simp at h
      · rw [List.mem_singleton] at h
        subst h; rfl
  · intro hc hne
    rw [hr, if_neg (by simp [hc]), if_neg (by simp [hne])]

def c1cmd : Cmd :=
  ⟨"c1", false, [], [], fun _ => Outcome.raise Err.cancelledError,
    Outcome.ok, true, [], none⟩

def st1w : InterState := ⟨[("x", OptValue.scalar 3)], some 5, false, "", ""⟩

theorem C1_witness :
    c1cmd.invoke st1w =
      ({ st1w with commandFailed := true },
        Event.prepare ::
          [Event.resolveParams [("x", OptValue.scalar 3)],
            Event.callBody "c1" [("x", OptValue.scalar 3)]] ++
          ((if c1cmd.hasMaxConcurrency then [Event.release] else []) ++
            [Event.afterHooks]),
        Outcome.ok) ∧
    ∀ ev ∈ (c1cmd.invoke st1w).2.1, ev.isNotification = false :=
  (C1_exception_translation c1cmd st1w st1w
    [Event.resolveParams [("x", OptValue.scalar 3)],
      Event.callBody "c1" [("x", OptValue.scalar 3)]]
    Err.cancelledError rfl rfl rfl).2.1 rfl

lemma countP_trace (p : Event → Bool) (tr1 fin2 : List Event)
    (h1 : tr1.countP p = 0) (hp : p Event.prepare = false) :
    (Event.prepare :: tr1 ++ fin2).countP p = fin2.countP p := by
  simp [List.countP_cons, List.countP_append, h1, hp]

/-- Claim C2: for every invocation that passes the guild-only check and
reaches dispatch (the prepare hook succeeded), on every outcome the trace
of invoke ends with the finally-block events: the concurrency slot is
released exactly once when a limiter is attached and never otherwise, the
after hooks run exactly once, the release precedes the after hooks, and no
release or after-hooks event occurs anywhere else in the trace. -/
theorem C2_release_and_after_hooks (c : Cmd) (st : InterState)
    (hpass : (c.guildOnly && st.guildId.isNone) = false)
    (hprep : c.prepareOutcome = Outcome.ok) :
    ∃ tr0 : List Event,
      (c.invoke st).2.1 =
        Event.prepare :: tr0 ++
          ((if c.hasMaxConcurrency then [Event.release] else []) ++
            [Event.afterHooks]) ∧
      (∀ ev ∈ tr0, ev.isRelease = false ∧ ev.isAfterHooks = false) ∧
      (c.invoke st).2.1.countP (fun ev => ev.isRelease) =
        (if c.hasMaxConcurrency then 1 else 0) ∧
      (c.invoke st).2.1.countP (fun ev => ev.isAfterHooks) = 1 := by
  rcases hd : c.invokeDispatch st with ⟨st1, tr1, out1⟩
  have htr := invoke_trace_eq c st hpass hprep st1 tr1 out1 hd
  have hsteps : ∀ ev ∈ tr1, ev.isDispatchStep = true := by
    intro ev hev
    exact invokeDispatch_events c st ev (by rw [hd]; exact hev)
  have h0r : tr1.countP (fun ev => ev.isRelease) = 0 := by
    rw [List.countP_eq_zero]
    intro ev hev
    have h := hsteps ev hev
    cases ev <;> simp_all [Event.isDispatchStep, Event.isRelease]
  have h0a : tr1.countP (fun ev => ev.isAfterHooks) = 0 := by
    rw [List.countP_eq_zero]
    intro ev hev
    have h := hsteps ev hev
    cases ev <;> simp_all [Event.isDispatchStep, Event.isAfterHooks]
  refine ⟨tr1, htr, ?_, ?_, ?_⟩
  · intro ev hev
    have h := hsteps ev hev
    cases ev <;>
      simp_all [Event.isDispatchStep, Event.isRelease, Event.isAfterHooks]
  · rw [htr]
    rw [countP_trace _ tr1 _ h0r rfl]
    cases hmc : c.hasMaxConcurrency <;> decide
  · rw [htr]
    rw [countP_trace _ tr1 _ h0a rfl]
    cases hmc : c.hasMaxConcurrency <;> decide

def c2cmd : Cmd :=
  ⟨"c2", false, [], [], fun _ => Outcome.ok, Outcome.ok, true, [], none⟩

def st2w : InterState := ⟨[], some 2, false, "", ""⟩

theorem C2_witness :
    ∃ tr0 : List Event,
      (c2cmd.invoke st2w).2.1 =
        Event.prepare :: tr0 ++
          ((if c2cmd.hasMaxConcurrency then [Event.release] else []) ++
            [Event.afterHooks]) ∧
      (∀ ev ∈ tr0, ev.isRelease = false ∧ ev.isAfterHooks = false) ∧
      (c2cmd.invoke st2w).2.1.countP (fun ev => ev.isRelease) =
        (if c2cmd.hasMaxConcurrency then 1 else 0) ∧
      (c2cmd.invoke st2w).2.1.countP (fun ev => ev.isAfterHooks) = 1 :=
  C2_release_and_after_hooks c2cmd st2w rfl rfl

lemma child_invokeAsSub_no_localHandler (child : Child) (st : InterState)
    (kwargs : List (String × OptValue)) :
    ∀ ev ∈ (child.invokeAsSub st kwargs).2.1, ev.isLocalHandler = false := by
  intro ev hev
  exact isPlainStep_not_localHandler (child_invokeAsSub_events child st kwargs ev hev)

lemma countP_localHandler_append (tr1 : List Event) (who : String) (e : Err)
    (h : ∀ ev ∈ tr1, ev.isLocalHandler = false) :
    (tr1 ++ [Event.localErrorHandler who e]).countP
      (fun ev => ev.isLocalHandler) = 1 := by
  have h0 : tr1.countP (fun ev => ev.isLocalHandler) = 0 :=
    List.countP_eq_zero.mpr (by intro a ha; simp [h a ha])
  rw [List.countP_append, h0]
  rfl

lemma callExternal_dispatch_once (c : Cmd) (e : Err) :
    (c.callExternalErrorHandlers e).1.countP
      (fun ev => ev.isGlobalDispatch) = 1 := by
  unfold Cmd.callExternalErrorHandlers
  cases c.cogHandler with
  | none => rfl
  | some f =>
      rcases hfe : f e with _ | e2 <;>
        simp [hfe, List.countP_cons, Event.isGlobalDispatch]

lemma invoke_no_globalDispatch (c : Cmd) (st : InterState) :
    ∀ ev ∈ (c.invoke st).2.1, ev.isGlobalDispatch = false := by
  intro ev hev
  by_cases hpass : (c.guildOnly && st.guildId.isNone) = true
  · unfold Cmd.invoke at hev
    rw [if_pos hpass] at hev
    simp only [List.mem_singleton] at hev
    subst hev; rfl
  · have hpass2 : (c.guildOnly && st.guildId.isNone) = false :=
      Bool.eq_false_iff.mpr hpass
    cases hprep : c.prepareOutcome with
    | raise e =>
        unfold Cmd.invoke at hev
        rw [hpass2, hprep] at hev
        simp only [Bool.false_eq_true, if_false, List.mem_singleton] at hev
        subst hev; rfl
    | ok =>
        rcases hd : c.invokeDispatch st with ⟨st1, tr1, out1⟩
        have htr := invoke_trace_eq c st hpass2 hprep st1 tr1 out1 hd
        rw [htr] at hev
        rcases List.mem_cons.mp hev with h | h
        · subst h; rfl
        rcases List.mem_append.mp h with h | h
        · have hstep := invokeDispatch_events c st ev (by rw [hd]; exact h)
          exact isDispatchStep_not_globalDispatch hstep
        rcases List.mem_append.mp h with h | h
        · cases hmc : c.hasMaxConcurrency with
          | true =>
              rw [hmc] at h
              simp only [if_true, List.mem_singleton] at h
              subst h; rfl
          | false =>
              rw [hmc] at h
              simp at h
        · rw [List.mem_singleton] at h
          subst h; rfl

/-- Claim C4: for every domain-level command error raised from the
invocation of a child (Leaf or Group at a length-1 path, Group or Leaf at
a length-2 path) inside invoke_children, that node locally-registered
error handler is notified exactly once and the error is re-raised to the
enclosing scope unchanged; and per top-level failing invocation the
process-wide fallback channel (the slash_command_error dispatch inside
_call_external_error_handlers) is notified exactly once, even when the
cog-level handler itself raises (the theorem quantifies over an arbitrary
cog handler behaviour, and the dispatch sits in the finally block). -/
theorem C4_local_handlers_and_global_fallback :
    (∀ (c : Cmd) (st : InterState) (n : String) (child : Child)
        (kwargs : List (String × OptValue)) (st1 : InterState)
        (tr1 : List Event) (e : Err),
      options_as_route st.options = ([n], kwargs) →
      dictGet n c.children = some child →
      child.invokeAsSub st kwargs = (st1, tr1, Outcome.raise e) →
      e.isCommandError = true →
      c.invoke_children st =
        (st1, tr1 ++ [Event.localErrorHandler child.name e],
          Outcome.raise e) ∧
      (tr1 ++ [Event.localErrorHandler child.name e]).countP
        (fun ev => ev.isLocalHandler) = 1) ∧
    (∀ (c : Cmd) (st : InterState) (n1 n2 : String) (g : SubCmdGroup)
        (kwargs : List (String × OptValue)) (st1 : InterState)
        (tr1 : List Event) (e : Err),
      options_as_route st.options = ([n1, n2], kwargs) →
      dictGet n1 c.children = some (Child.group g) →
      g.invoke st [] = (st1, tr1, Outcome.raise e) →
      e.isCommandError = true →
      c.invoke_children st =
        (st1, tr1 ++ [Event.localErrorHandler g.name e], Outcome.raise e) ∧
      (tr1 ++ [Event.localErrorHandler g.name e]).countP
        (fun ev => ev.isLocalHandler) = 1) ∧
    (∀ (c : Cmd) (st : InterState) (n1 n2 : String) (g : SubCmdGroup)
        (s : SubCmd) (kwargs : List (String × OptValue))
        (st1 : InterState) (tr1 : List Event) (st2 : InterState)
        (tr2 : List Event) (e : Err),
      options_as_route st.options = ([n1, n2], kwargs) →
      dictGet n1 c.children = some (Child.group g) →
      g.invoke st [] = (st1, tr1, Outcome.ok) →
      dictGet n2 g.children = some s →
      s.invoke st1 kwargs = (st2, tr2, Outcome.raise e) →
      e.isCommandError = true →
      c.invoke_children st =
        (st2, tr1 ++ (tr2 ++ [Event.localErrorHandler s.name e]),
          Outcome.raise e) ∧
      (tr1 ++ (tr2 ++ [Event.localErrorHandler s.name e])).countP
        (fun ev => ev.isLocalHandler) = 1) ∧
    (∀ (c : Cmd) (st st1 : InterState) (tr1 : List Event) (e : Err),
      c.invoke st = (st1, tr1, Outcome.raise e) →
      e.isCommandError = true →
      (processInvocation c st).2.1.countP
        (fun ev => ev.isGlobalDispatch) = 1) := by
  refine ⟨?_, ?_, ?_, ?_⟩
  · intro c st n child kwargs st1 tr1 e hroute hchild hsub hc
    have hno : ∀ ev ∈ tr1, ev.isLocalHandler = false := by
      intro ev hev
      exact child_invokeAsSub_no_localHandler child st kwargs ev
        (by rw [hsub]; exact hev)
    constructor
    · rw [invoke_children_eq_routeCases, hroute]
      simp only [routeCases, hchild, hsub]
      simp [withLocalHandler, hc]
    · exact countP_localHandler_append tr1 child.name e hno
  · intro c st n1 n2 g kwargs st1 tr1 e hroute hg hginv hc
    have hno : ∀ ev ∈ tr1, ev.isLocalHandler = false := by
      intro ev hev
      exact isPlainStep_not_localHandler (subCmdGroup_invoke_events g st []
        ev (by rw [hginv]; exact hev))
    constructor
    · rw [invoke_children_eq_routeCases, hroute]
      simp only [routeCases, hg, hginv]
      simp [withLocalHandler, hc]
    · exact countP_localHandler_append tr1 g.name e hno
  · intro c st n1 n2 g s kwargs st1 tr1 st2 tr2 e hroute hg hginv hs hsinv hc
    have hno1 : ∀ ev ∈ tr1, ev.isLocalHandler = false := by
      intro ev hev
      exact isPlainStep_not_localHandler (subCmdGroup_invoke_events g st []
        ev (by rw [hginv]; exact hev))
    have hno2 : ∀ ev ∈ tr2, ev.isLocalHandler = false := by
      intro ev hev
      exact isPlainStep_not_localHandler (subCmd_invoke_events s st1 kwargs
        ev (by rw [hsinv]; exact hev))
    constructor
    · rw [invoke_children_eq_routeCases, hroute]
      simp only [routeCases, hg, hginv, hs, hsinv]
      simp [withLocalHandler, hc, hginv, hs, hsinv]
    · have h0 : tr1.countP (fun ev => ev.isLocalHandler) = 0 :=
        List.countP_eq_zero.mpr (by intro a ha; simp [hno1 a ha])
      rw [List.countP_append, h0,
        countP_localHandler_append tr2 s.name e hno2]
  · intro c st st1 tr1 e hinv hc
    unfold processInvocation
    rw [hinv]
    simp only [hc, if_true]
    rcases hext : c.callExternalErrorHandlers e with ⟨tr2, out2⟩
    have h1 : tr1.countP (fun ev => ev.isGlobalDispatch) = 0 :=
      List.countP_eq_zero.mpr (by
        intro a ha
        simp [invoke_no_globalDispatch c st a (by rw [hinv]; exact ha)])
    have h2 : tr2.countP (fun ev => ev.isGlobalDispatch) = 1 := by
      have h := callExternal_dispatch_once c e
      rw [hext] at h
      exact h
    simp only [List.countP_append, h1, h2]

def c4sub : SubCmd :=
  ⟨"s", false, [], [], fun _ => Outcome.raise (Err.commandError 7)⟩

def c4grp : SubCmdGroup := ⟨"g", [("s", c4sub)], fun _ => Outcome.ok⟩

def c4cmd : Cmd :=
  ⟨"root", false, [], [("g", Child.group c4grp)], fun _ => Outcome.ok,
    Outcome.ok, false, [],
    some (fun _ => Outcome.raise (Err.otherError 1))⟩

def st4 : InterState :=
  ⟨[("g", OptValue.nested [("s", OptValue.nested
    [("x", OptValue.scalar 5)])])], some 1, false, "", ""⟩

theorem C4_witness :
    (c4cmd.invoke_children st4 =
      (st4, [Event.callBody "g" []] ++
        ([Event.resolveParams [("x", OptValue.scalar 5)],
          Event.callBody "s" [("x", OptValue.scalar 5)]] ++
          [Event.localErrorHandler "s" (Err.commandError 7)]),
        Outcome.raise (Err.commandError 7)) ∧
      ([Event.callBody "g" []] ++
        ([Event.resolveParams [("x", OptValue.scalar 5)],
          Event.callBody "s" [("x", OptValue.scalar 5)]] ++
          [Event.localErrorHandler "s" (Err.commandError 7)])).countP
        (fun ev => ev.isLocalHandler) = 1) ∧
    (processInvocation c4cmd st4).2.1.countP
      (fun ev => ev.isGlobalDispatch) = 1 := by
  constructor
  · exact C4_local_handlers_and_global_fallback.2.2.1 c4cmd st4 "g" "s"
      c4grp c4sub [("x", OptValue.scalar 5)] st4 [Event.callBody "g" []]
      st4 [Event.resolveParams [("x", OptValue.scalar 5)],
        Event.callBody "s" [("x", OptValue.scalar 5)]]
      (Err.commandError 7)
      (by simp [options_as_route, st4]) rfl rfl rfl rfl rfl
  · exact C4_local_handlers_and_global_fallback.2.2.2 c4cmd st4
      { st4 with commandFailed := true }
      [Event.prepare, Event.callBody "root" [], Event.callBody "g" [],
        Event.resolveParams [("x", OptValue.scalar 5)],
        Event.callBody "s" [("x", OptValue.scalar 5)],
        Event.localErrorHandler "s" (Err.commandError 7), Event.afterHooks]
      (Err.commandError 7)
      (by simp [Cmd.invoke, Cmd.invokeDispatch, Cmd.invoke_children,
        options_as_route, c4cmd, c4grp, c4sub, st4, withLocalHandler,
        Child.invokeAsSub, Child.name, SubCmdGroup.invoke, SubCmd.invoke,
        applyConnectors, dictGet, Err.isCommandError]) rfl

/-- Claim C6: connector renaming.  First part: for a node connectors table
entry (apiName, paramName) with apiName present in a flat argument map
with unique keys (the Python dict invariant) and apiName distinct from
paramName, the rename step moves the value to paramName and deletes the
old key.  Second part: in a two-level dispatch the renaming is applied
independently per node level with the node own table and before the
argument binder runs: the Group body is invoked with the empty map
(untouched by the Leaf connectors), while the Leaf resolveParams event —
the argument-binder call — and the Leaf body call both carry exactly the
leaf-argument map renamed through the Leaf own connectors table only. -/
theorem C6_connector_renaming :
    (∀ (kwargs : List (String × OptValue)) (k v : String) (val : OptValue),
      (kwargs.map Prod.fst).Nodup → k ≠ v → dictGet k kwargs = some val →
      dictGet v (renameStep kwargs (k, v)) = some val ∧
      dictGet k (renameStep kwargs (k, v)) = none) ∧
    (∀ (c : Cmd) (st : InterState) (n1 n2 : String) (g : SubCmdGroup)
        (s : SubCmd) (kwargs : List (String × OptValue)),
      options_as_route st.options = ([n1, n2], kwargs) →
      dictGet n1 c.children = some (Child.group g) →
      dictGet n2 g.children = some s →
      g.body [] = Outcome.ok →
      s.guildOnly = false →
      s.body (applyConnectors s.connectors kwargs) = Outcome.ok →
      c.invoke_children st =
        (st, [Event.callBody g.name [],
          Event.resolveParams (applyConnectors s.connectors kwargs),
          Event.callBody s.name (applyConnectors s.connectors kwargs)],
          Outcome.ok)) := by
  constructor
  · intro kwargs k v val hnd hne hget
    have hstep : renameStep kwargs (k, v) = dictSet v val (dictPop k kwargs) := by
      simp only [renameStep, hget]
    rw [hstep]
    refine ⟨dictGet_dictSet_self v val (dictPop k kwargs), ?_⟩
    rw [dictGet_dictSet_ne k v val _ hne]
    exact dictGet_dictPop_self k kwargs hnd
  · intro c st n1 n2 g s kwargs hroute hg hs hgb hsg hsb
    rw [invoke_children_eq_routeCases, hroute]
    simp [routeCases, hg, hs, withLocalHandler, SubCmdGroup.invoke,
      SubCmd.invoke, hgb, hsg, hsb]

def c6sub : SubCmd :=
  ⟨"sub1", false, [("x", "value")], [], fun _ => Outcome.ok⟩

def c6grp : SubCmdGroup := ⟨"group1", [("sub1", c6sub)], fun _ => Outcome.ok⟩

def c6cmd : Cmd :=
  ⟨"root", false, [], [("group1", Child.group c6grp)], fun _ => Outcome.ok,
    Outcome.ok, false, [], none⟩

def st6 : InterState :=
  ⟨[("group1", OptValue.nested [("sub1", OptValue.nested
    [("x", OptValue.scalar 5)])])], some 1, false, "", ""⟩

theorem C6_witness :
    (dictGet "value" (renameStep [("x", OptValue.scalar 5),
        ("y", OptValue.scalar 6)] ("x", "value")) = some (OptValue.scalar 5) ∧
      dictGet "x" (renameStep [("x", OptValue.scalar 5),
        ("y", OptValue.scalar 6)] ("x", "value")) = none) ∧
    c6cmd.invoke_children st6 =
      (st6, [Event.callBody c6grp.name [],
        Event.resolveParams (applyConnectors c6sub.connectors
          [("x", OptValue.scalar 5)]),
        Event.callBody c6sub.name (applyConnectors c6sub.connectors
          [("x", OptValue.scalar 5)])],
        Outcome.ok) := by
  constructor
  · exact C6_connector_renaming.1 [("x", OptValue.scalar 5),
      ("y", OptValue.scalar 6)] "x" "value" (OptValue.scalar 5)
      (by simp) (by decide) rfl
  · exact C6_connector_renaming.2 c6cmd st6 "group1" "sub1" c6grp c6sub
      [("x", OptValue.scalar 5)] (by simp [options_as_route, st6])
      rfl rfl rfl rfl rfl

/-- Claim C10: for a childless command, invoke uses the interaction option
dict itself as the keyword-argument map, and connector renaming mutates it
in place: after invoke, the option tree held by the interaction state IS
the renamed map (whatever the body outcome), and the binder and the body
receive exactly that map.  For a sub-command invocation the renaming
operates on a fresh map unpacked from the keyword arguments at the call
site: the interaction raw option tree is returned unchanged while the Leaf
binder and body receive the map renamed through the Leaf connectors. -/
theorem C10_options_aliasing :
    (∀ (c : Cmd) (st : InterState),
      (c.guildOnly && st.guildId.isNone) = false →
      c.prepareOutcome = Outcome.ok →
      c.children = [] →
      (c.invoke st).1.options = applyConnectors c.connectors st.options ∧
      (c.invoke st).2.1 =
        Event.prepare ::
          [Event.resolveParams (applyConnectors c.connectors st.options),
            Event.callBody c.name (applyConnectors c.connectors st.options)] ++
          ((if c.hasMaxConcurrency then [Event.release] else []) ++
            [Event.afterHooks])) ∧
    (∀ (c : Cmd) (st : InterState) (n : String) (s : SubCmd)
        (kwargs : List (String × OptValue)),
      (c.guildOnly && st.guildId.isNone) = false →
      c.prepareOutcome = Outcome.ok →
      c.children = [(n, Child.sub s)] →
      c.body [] = Outcome.ok →
      options_as_route st.options = ([n], kwargs) →
      s.guildOnly = false →
      s.body (applyConnectors s.connectors kwargs) = Outcome.ok →
      (c.invoke st).1.options = st.options ∧
      (c.invoke st).2.1 =
        Event.prepare :: (Event.callBody c.name [] ::
          [Event.resolveParams (applyConnectors s.connectors kwargs),
            Event.callBody s.name (applyConnectors s.connectors kwargs)]) ++
          ((if c.hasMaxConcurrency then [Event.release] else []) ++
            [Event.afterHooks])) := by
  constructor
  · intro c st hpass hprep hch
    have hd : c.invokeDispatch st =
        ({ st with options := applyConnectors c.connectors st.options },
          [Event.resolveParams (applyConnectors c.connectors st.options),
            Event.callBody c.name (applyConnectors c.connectors st.options)],
          c.body (applyConnectors c.connectors st.options)) := by
      unfold Cmd.invokeDispatch
      rw [hch]
      simp
    rcases hb : c.body (applyConnectors c.connectors st.options) with _ | e
    · rw [hb] at hd
      rw [invoke_ok_case c st hpass hprep _ _ hd]
      exact ⟨rfl, rfl⟩
    · rw [hb] at hd
      rw [invoke_raise_case c st hpass hprep _ _ e hd]
      split
      · exact ⟨rfl, rfl⟩
      · split <;> exact ⟨rfl, rfl⟩
  · intro c st n s kwargs hpass hprep hch hbody hroute hsg hsb
    have hic : c.invoke_children st =
        (st, [Event.resolveParams (applyConnectors s.connectors kwargs),
          Event.callBody s.name (applyConnectors s.connectors kwargs)],
          Outcome.ok) := by
      rw [invoke_children_eq_routeCases, hroute]
      simp [routeCases, hch, dictGet, withLocalHandler, Child.invokeAsSub,
        SubCmd.invoke, hsg, hsb]
    have hlen : 0 < c.children.length := by rw [hch]; simp
    have hd := invokeDispatch_children_ok c st hlen hbody
    rw [hic] at hd
    rw [invoke_ok_case c st hpass hprep _ _ hd]
    exact ⟨rfl, rfl⟩

def c10a : Cmd :=
  ⟨"flat", false, [("x", "renamed")], [], fun _ => Outcome.ok, Outcome.ok,
    false, [], none⟩

def st10a : InterState := ⟨[("x", OptValue.scalar 1)], some 3, false, "", ""⟩

def c10sub : SubCmd :=
  ⟨"s", false, [("x", "renamed")], [], fun _ => Outcome.ok⟩

def c10b : Cmd :=
  ⟨"root", false, [], [("s", Child.sub c10sub)], fun _ => Outcome.ok,
    Outcome.ok, false, [], none⟩

def st10b : InterState :=
  ⟨[("s", OptValue.nested [("x", OptValue.scalar 2)])], some 3, false, "", ""⟩

theorem C10_witness :
    ((c10a.invoke st10a).1.options =
        applyConnectors c10a.connectors st10a.options ∧
      (c10a.invoke st10a).2.1 =
        Event.prepare ::
          [Event.resolveParams (applyConnectors c10a.connectors st10a.options),
            Event.callBody c10a.name
              (applyConnectors c10a.connectors st10a.options)] ++
          ((if c10a.hasMaxConcurrency then [Event.release] else []) ++
            [Event.afterHooks])) ∧
    ((c10b.invoke st10b).1.options = st10b.options ∧
      (c10b.invoke st10b).2.1 =
        Event.prepare :: (Event.callBody c10b.name [] ::
          [Event.resolveParams (applyConnectors c10sub.connectors
              [("x", OptValue.scalar 2)]),
            Event.callBody c10sub.name (applyConnectors c10sub.connectors
              [("x", OptValue.scalar 2)])]) ++
          ((if c10b.hasMaxConcurrency then [Event.release] else []) ++
            [Event.afterHooks])) :=
  ⟨C10_options_aliasing.1 c10a st10a rfl rfl rfl,
    C10_options_aliasing.2 c10b st10b "s" c10sub [("x", OptValue.scalar 2)]
      rfl rfl rfl rfl (by simp [options_as_route, st10b]) rfl rfl⟩
